import Mathlib

set_option maxRecDepth 10000

/-!
Shallow embedding of the PintOS inode layer (`src/src/filesys/inode.c`).

The block device is modelled as a map from sector ids to sector contents,
a sector being viewed as an array of `NUM_INDIRECT_PTRS` 32-bit words
(the only sectors ever inspected word-wise are indirection blocks and the
zero-filled data blocks).  The external free-space allocator (free-map) is
modelled by a deterministic supply of fresh sector numbers together with
counters of successful and failed requests.  All C loops are translated
into structurally recursive functions; the mutually recursive walkers
`inode_alloc_iblock` / `inode_dealloc_iblock` are driven by an explicit
fuel argument that strictly exceeds the depth of any actual call chain,
so every definition is executable and kernel-reducible.
-/

/-- Sector size in bytes (`BLOCK_SECTOR_SIZE`). -/
def BLOCK_SECTOR_SIZE : Nat := 512

/-- Number of sector pointers held by one indirection block (`NUM_INDIRECT_PTRS`). -/
def NUM_INDIRECT_PTRS : Nat := 128

/-- Number of data sectors addressable through the doubly indirect block
(`NUM_DBL_INDIRECT_PTRS` = 128 * 128). -/
def NUM_DBL_INDIRECT_PTRS : Nat := 16384

/-- Modelled from the spec: the header `filesys/inode.h`, which fixes the
number of direct pointers in the on-disk record, is not part of the shown
source.  Per the spec, `N_DIRECT` is whatever count makes the record exactly
one 512-byte sector: 512 bytes = 128 four-byte words, minus the `length`,
`magic`, directory-flag, `indirect` and `doubly_indirect` fields, giving 123.
None of the theorems below depends on this exact value. -/
def NUM_DIRECT_BLOCKS : Nat := 123

/-- A sector's content viewed as an array of sector-pointer words. -/
def Block : Type := Nat → Nat

/-- The all-zero sector written by the allocator (`static char zeros[...]`). -/
def zeroBlock : Block := fun _ => 0

/-- Update one pointer word of a block (`indirect_block.block_ptrs[i] = v`). -/
def updateWord (b : Block) (i v : Nat) : Block := fun j => if j = i then v else b j

/-- The block device: sector id to sector content (`fs_device`). -/
def Disk : Type := Nat → Block

/-- `block_write (fs_device, s, b)`. -/
def writeBlock (disk : Disk) (s : Nat) (b : Block) : Disk :=
  fun t => if t = s then b else disk t

/-- Modelled from the spec: the external free-space allocator (`free-map.c` is
not part of the shown source).  `supply` is the list of sector numbers the
allocator will hand out next (all nonzero; sector 0 is never handed out);
an empty supply means the allocator is exhausted.  `allocs` counts requests
that succeeded, `fails` counts requests that failed.  On failure the caller's
slot is left unchanged, matching the spec's `allocate(count) -> sector_id
| failure` interface. -/
structure FMap where
  supply : List Nat
  allocs : Nat
  fails : Nat

/-- `free_map_allocate (1, &slot)`: returns the fresh sector (or `none`) and
the updated allocator state. -/
def free_map_allocate (fm : FMap) : Option Nat × FMap :=
  match fm.supply with
  | [] => (none, { fm with fails := fm.fails + 1 })
  | s :: rest => (some s, { supply := rest, allocs := fm.allocs + 1, fails := fm.fails })

/-- The on-disk inode record (`struct inode_disk`). -/
structure InodeDisk where
  length : Int
  direct_blocks : Nat → Nat
  indirect_block : Nat
  doubly_indirect_block : Nat
  is_dir : Bool

/-- `bytes_to_sectors`: `DIV_ROUND_UP (size, BLOCK_SECTOR_SIZE)` on a signed
`off_t`, i.e. truncating C division of `size + 511` by 512. -/
def bytes_to_sectors (size : Int) : Nat := (Int.tdiv (size + 511) 512).toNat

/-- Store a pointer into the record's direct array
(`disk_inode->direct_blocks[i] = v`). -/
def setDirect (d : InodeDisk) (i v : Nat) : InodeDisk :=
  { d with direct_blocks := fun j => if j = i then v else d.direct_blocks j }

/-- Result of `byte_to_sector`: a sector id, the `-1` not-found sentinel, or
an out-of-bounds array access (undefined behaviour in the C source). -/
inductive TransResult where
  | found (s : Nat)
  | notFound
  | undef
deriving DecidableEq

/-- Read one pointer word of a sector, reporting an index past the 128-entry
`block_ptrs` array as undefined behaviour (`none`). -/
def readWord (disk : Disk) (s i : Nat) : Option Nat :=
  if i < NUM_INDIRECT_PTRS then some (disk s i) else none

/-- `byte_to_sector (inode, pos)`.  Faithful to the source, including the
inner index of the double-indirect case, which the source computes as
`pos - (indirect_idx) % NUM_INDIRECT_PTRS`: C precedence parses this as
`pos - (indirect_idx % NUM_INDIRECT_PTRS)`. -/
def byte_to_sector (disk : Disk) (d : InodeDisk) (pos : Int) : TransResult :=
  let indirect_idx : Int := (NUM_DIRECT_BLOCKS : Int) + (NUM_INDIRECT_PTRS : Int)
  let double_indirect_idx : Int := indirect_idx + (NUM_DBL_INDIRECT_PTRS : Int)
  if pos < d.length then
    let p : Int := Int.tdiv pos 512
    if p < (NUM_DIRECT_BLOCKS : Int) then
      if p < 0 then TransResult.undef
      else TransResult.found (d.direct_blocks p.toNat)
    else if p < indirect_idx then
      TransResult.found (disk d.indirect_block (p - (NUM_DIRECT_BLOCKS : Int)).toNat)
    else if p < double_indirect_idx then
      let outer : Nat := disk d.doubly_indirect_block
        ((p - indirect_idx).toNat / NUM_INDIRECT_PTRS)
      let innerIdx : Int := p - Int.emod indirect_idx (NUM_INDIRECT_PTRS : Int)
      match readWord disk outer innerIdx.toNat with
      | some v => TransResult.found v
      | none => TransResult.undef
    else TransResult.notFound
  else TransResult.notFound

/-- Fuel bound for the recursive indirection-block walkers.  The recursion
depth of the C walkers is bounded by the per-level loop counts, which this
value strictly exceeds for every call made by the inode layer; the fuel is
a termination device only and is never exhausted on an actual trace. -/
def walkFuel (ssize height : Nat) : Nat := (height + 2) * (ssize + 8) + 8

/-- Call descriptor for `inode_alloc_iblock`: either the `while (height > 0)`
loop with the current slot value, remaining sector count, height and unit,
or the inner `for` loop over indirection-block entries. -/
inductive ACall where
  | whileL (sector ssize height unit : Nat)
  | forL (sector : Nat) (ib : Block) (ssize unit height iters idx : Nat)

/-- Result of a step of `inode_alloc_iblock`: the while loop returns a
success flag and the (possibly updated) slot value; the for loop either
aborts with failure (`return false`) or completes with the updated in-memory
indirection block and remaining sector count. -/
inductive ARes where
  | whileR (ok : Bool) (sector : Nat) (disk : Disk) (fm : FMap)
  | forFail (disk : Disk) (fm : FMap)
  | forDone (ib : Block) (ssize : Nat) (disk : Disk) (fm : FMap)

/-- One fuel-indexed step of `inode_alloc_iblock` (the body of the C function,
loops unrolled into recursion).  Faithful to the source:
the slot's own sector is allocated with an *unchecked* `free_map_allocate`
(on failure the slot stays 0 and zeros are written to sector 0);
`unit` becomes 128 at height 2 and persists into later while iterations;
`limit = sector_size / unit` rounds down;
at height 1 an already-nonzero entry is left untouched (but the block is
still written back and `sector_size` still decreases);
a failed `free_map_allocate` for an entry, or a failed recursive child,
aborts with failure. -/
def allocStep : Nat → ACall → Disk → FMap → ARes
  | 0, _, disk, fm => ARes.whileR false 0 disk fm
  | fuel + 1, ACall.whileL sector ssize height unit, disk, fm =>
    if height = 0 then ARes.whileR true sector disk fm
    else
      match
        (if sector = 0 then
          match free_map_allocate fm with
          | (some s, fm) => (s, writeBlock disk s zeroBlock, fm)
          | (none, fm) => (sector, writeBlock disk sector zeroBlock, fm)
        else (sector, disk, fm) : Nat × Disk × FMap)
      with
      | (sector, disk, fm) =>
        let ib := disk sector
        let unit := if height = 2 then NUM_INDIRECT_PTRS else unit
        let limit := ssize / unit
        match allocStep fuel (ACall.forL sector ib ssize unit height limit 0) disk fm with
        | ARes.forFail disk fm => ARes.whileR false sector disk fm
        | ARes.forDone _ ssize disk fm =>
          allocStep fuel (ACall.whileL sector ssize (height - 1) unit) disk fm
        | ARes.whileR _ _ disk fm => ARes.whileR false sector disk fm
  | fuel + 1, ACall.forL sector ib ssize unit height iters idx, disk, fm =>
    match iters with
    | 0 => ARes.forDone ib ssize disk fm
    | iters' + 1 =>
      let size := min ssize unit
      if height = 1 then
        if ib idx = 0 then
          match free_map_allocate fm with
          | (some s, fm) =>
            let ib2 := updateWord ib idx s
            let disk2 := writeBlock (writeBlock disk s zeroBlock) sector ib2
            allocStep fuel (ACall.forL sector ib2 (ssize - size) unit height iters' (idx + 1)) disk2 fm
          | (none, fm) => ARes.forFail disk fm
        else
          let disk2 := writeBlock disk sector ib
          allocStep fuel (ACall.forL sector ib (ssize - size) unit height iters' (idx + 1)) disk2 fm
      else
        match allocStep fuel (ACall.whileL (ib idx) size (height - 1) 1) disk fm with
        | ARes.whileR true s disk fm =>
          let ib2 := updateWord ib idx s
          let disk2 := writeBlock disk sector ib2
          allocStep fuel (ACall.forL sector ib2 (ssize - size) unit height iters' (idx + 1)) disk2 fm
        | ARes.whileR false _ disk fm => ARes.forFail disk fm
        | ARes.forFail disk fm => ARes.forFail disk fm
        | ARes.forDone _ _ disk fm => ARes.forFail disk fm

/-- `inode_alloc_iblock (&slot, sector_size, height)`: returns the success
flag, the final slot value, and the updated device and allocator states. -/
def inode_alloc_iblock (sector ssize height : Nat) (disk : Disk) (fm : FMap) :
    Bool × Nat × Disk × FMap :=
  match allocStep (walkFuel ssize height) (ACall.whileL sector ssize height 1) disk fm with
  | ARes.whileR ok s disk fm => (ok, s, disk, fm)
  | ARes.forFail disk fm => (false, sector, disk, fm)
  | ARes.forDone _ _ disk fm => (false, sector, disk, fm)

/-- Outcome of the direct-blocks `while` loop of `inode_alloc`: early
`return true` (required count satisfied), early `return false` (allocation
failed), or falling through to the indirect phase with the remaining count. -/
inductive DirectRes where
  | retTrue (d : InodeDisk) (disk : Disk) (fm : FMap)
  | retFalse (d : InodeDisk) (disk : Disk) (fm : FMap)
  | fall (d : InodeDisk) (disk : Disk) (fm : FMap) (ssize : Nat)

/-- The direct-blocks loop of `inode_alloc`.  Faithful to the source:
`sector_size` decreases (and the early `return true` test fires) only for a
slot that was just allocated — an already-nonzero direct slot is skipped
without decreasing `sector_size`. -/
def allocDirect (d : InodeDisk) (disk : Disk) (fm : FMap) (ssize : Nat) (idx : Nat) :
    Nat → DirectRes
  | 0 => DirectRes.fall d disk fm ssize
  | iters + 1 =>
    if d.direct_blocks idx = 0 then
      match free_map_allocate fm with
      | (some s, fm) =>
        let d2 := setDirect d idx s
        let disk2 := writeBlock disk s zeroBlock
        let ssize2 := ssize - 1
        if ssize2 = 0 then DirectRes.retTrue d2 disk2 fm
        else allocDirect d2 disk2 fm ssize2 (idx + 1) iters
      | (none, fm) => DirectRes.retFalse d disk fm
    else allocDirect d disk fm ssize (idx + 1) iters

/-- `inode_alloc (disk_inode, length)`: grow the record's block map to cover
`length` bytes.  Returns the success flag and the updated record, device and
allocator states. -/
def inode_alloc (d : InodeDisk) (length : Int) (disk : Disk) (fm : FMap) :
    Bool × InodeDisk × Disk × FMap :=
  let ssize := bytes_to_sectors length
  let limit := min ssize NUM_DIRECT_BLOCKS
  match allocDirect d disk fm ssize 0 limit with
  | DirectRes.retTrue d disk fm => (true, d, disk, fm)
  | DirectRes.retFalse d disk fm => (false, d, disk, fm)
  | DirectRes.fall d disk fm ssize =>
    let indirect_limit := min ssize NUM_INDIRECT_PTRS
    match
      (if 0 < indirect_limit then
        match inode_alloc_iblock d.indirect_block indirect_limit 1 disk fm with
        | (ok, s, disk, fm) => (ok, { d with indirect_block := s }, disk, fm)
      else (true, d, disk, fm) : Bool × InodeDisk × Disk × FMap)
    with
    | (false, d, disk, fm) => (false, d, disk, fm)
    | (true, d, disk, fm) =>
      let ssize := ssize - indirect_limit
      if ssize = 0 then (true, d, disk, fm)
      else
        let dbl_limit := min ssize NUM_DBL_INDIRECT_PTRS
        match
          (if 0 < dbl_limit then
            match inode_alloc_iblock d.doubly_indirect_block dbl_limit 2 disk fm with
            | (ok, s, disk, fm) => (ok, { d with doubly_indirect_block := s }, disk, fm)
          else (true, d, disk, fm) : Bool × InodeDisk × Disk × FMap)
        with
        | (false, d, disk, fm) => (false, d, disk, fm)
        | (true, d, disk, fm) => (ssize - dbl_limit == 0, d, disk, fm)

/-- `inode_create (sector, length, is_dir)`: builds a zeroed record (`calloc`),
sets `length` and the directory flag, and allocates the block map; on success
the record is written to its own sector (that record write is a byte-level
store not represented in the word-level disk model).  The C source asserts
`length >= 0`; callers below respect it. -/
def inode_create (length : Int) (is_dir : Bool) (disk : Disk) (fm : FMap) :
    Bool × Disk × FMap :=
  let d0 : InodeDisk :=
    { length := length, direct_blocks := fun _ => 0, indirect_block := 0,
      doubly_indirect_block := 0, is_dir := is_dir }
  match inode_alloc d0 length disk fm with
  | (ok, _, disk, fm) => (ok, disk, fm)

/-- Call descriptor for `inode_dealloc_iblock`: the function entry (with its
`height == 1` early return), the `while (height > 1)` loop, or the inner
`for` loop over indirection-block entries. -/
inductive DCall where
  | entry (e ssize height : Nat)
  | whileL (e ssize height unit : Nat)
  | forL (ib : Block) (ssize unit height iters idx : Nat)

/-- One fuel-indexed step of `inode_dealloc_iblock`, returning the list of
sectors passed to `free_map_release` (in call order, with multiplicity) and
the final remaining sector count.  Faithful to the source: at `height == 1`
the function releases just the entry itself and returns at once (the leaf
data sectors it points to are never visited); after the `while` loop the
trailing leaf-release code runs with whatever `unit` and `sector_size` the
loop left behind, and releases the entry once more. -/
def deallocStep (disk : Disk) : Nat → DCall → List Nat × Nat
  | 0, _ => ([], 0)
  | fuel + 1, DCall.entry e ssize height =>
    if height = 1 then ([e], ssize)
    else deallocStep disk fuel (DCall.whileL e ssize height 1)
  | fuel + 1, DCall.whileL e ssize height unit =>
    if 1 < height then
      let ib := disk e
      let unit2 := if height = 2 then NUM_INDIRECT_PTRS else unit
      let limit := ssize / unit2
      match deallocStep disk fuel (DCall.forL ib ssize unit2 height limit 0) with
      | (evs, ssize2) =>
        match deallocStep disk fuel (DCall.whileL e ssize2 (height - 1) unit2) with
        | (evs2, ssize3) => (evs ++ e :: evs2, ssize3)
    else
      let ib := disk e
      let limit := ssize / unit
      ((List.range limit).map ib ++ [e], ssize)
  | fuel + 1, DCall.forL ib ssize unit height iters idx =>
    match iters with
    | 0 => ([], ssize)
    | iters' + 1 =>
      let size := min ssize unit
      match deallocStep disk fuel (DCall.entry (ib idx) size (height - 1)) with
      | (evs, _) =>
        match deallocStep disk fuel (DCall.forL ib (ssize - size) unit height iters' (idx + 1)) with
        | (evs2, ssize2) => (evs ++ evs2, ssize2)

/-- `inode_dealloc_iblock (entry, sector_size, height)`: the sectors it
releases, in order. -/
def inode_dealloc_iblock (disk : Disk) (entry ssize height : Nat) : List Nat :=
  (deallocStep disk (walkFuel ssize height) (DCall.entry entry ssize height)).1

/-- `inode_dealloc (disk_inode)`: returns the C function's success flag and
the list of sectors released to the free map, in call order.  Faithful to
the source: the direct loop releases `min (sectors, NUM_DIRECT_BLOCKS)`
direct pointers, then the indirect and doubly indirect ranges are handed to
`inode_dealloc_iblock` with heights 1 and 2. -/
def inode_dealloc (disk : Disk) (d : InodeDisk) : Bool × List Nat :=
  let ssize := bytes_to_sectors d.length
  if d.length < 0 then (false, [])
  else
    let limit := min ssize NUM_DIRECT_BLOCKS
    let directEvs := (List.range limit).map d.direct_blocks
    let ssize := ssize - limit
    let indirect_limit := min ssize NUM_INDIRECT_PTRS
    let evs1 := if 0 < indirect_limit then inode_dealloc_iblock disk d.indirect_block indirect_limit 1 else []
    let ssize := ssize - indirect_limit
    let dbl_limit := min ssize NUM_DBL_INDIRECT_PTRS
    let evs2 := if 0 < dbl_limit then inode_dealloc_iblock disk d.doubly_indirect_block dbl_limit 2 else []
    (true, directEvs ++ evs1 ++ evs2)

/-- The shared chunking loop of `inode_read_at`, returning `bytes_read`.
Each iteration computes `chunk = min (size, min (length - offset,
512 - offset % 512))` (with C truncating `%`) and stops as soon as the chunk
is non-positive.  The fuel equals the initial `size.toNat`, which bounds the
iteration count since every iteration consumes at least one byte; the scratch
bounce buffer is assumed available (its `malloc` failure could only stop the
loop earlier, reading fewer bytes). -/
def readLoopCount : Nat → Int → Int → Int → Int
  | 0, _, _, _ => 0
  | fuel + 1, length, size, offset =>
    if 0 < size then
      let sector_ofs := Int.tmod offset 512
      let inode_left := length - offset
      let sector_left := 512 - sector_ofs
      let min_left := min inode_left sector_left
      let chunk := min size min_left
      if chunk ≤ 0 then 0
      else chunk + readLoopCount fuel length (size - chunk) (offset + chunk)
    else 0

/-- `inode_read_at (inode, buffer, size, offset)`, reduced to the byte count
it returns (the data bytes themselves pass through the bounce buffer and do
not influence the count). -/
def inode_read_at_count (d : InodeDisk) (size offset : Int) : Int :=
  readLoopCount size.toNat d.length size offset

/-- A device write performed by `inode_write_at`: the persisting of the
inode's own record sector (growth path), or a data-chunk write whose target
is the `byte_to_sector` translation of the chunk's offset. -/
inductive WEvent where
  | recordWrite
  | dataWrite (t : TransResult)
deriving DecidableEq

/-- The chunking loop of `inode_write_at`: bytes written plus the ordered
list of data-chunk writes.  The chunk arithmetic is identical to the read
loop's; each chunk ends in exactly one `block_write` to the translated
sector (full-sector direct write, or read-modify-write via the bounce
buffer). -/
def writeLoopEvents (disk : Disk) (d : InodeDisk) : Nat → Int → Int → Int × List WEvent
  | 0, _, _ => (0, [])
  | fuel + 1, size, offset =>
    if 0 < size then
      let t := byte_to_sector disk d offset
      let sector_ofs := Int.tmod offset 512
      let inode_left := d.length - offset
      let sector_left := 512 - sector_ofs
      let min_left := min inode_left sector_left
      let chunk := min size min_left
      if chunk ≤ 0 then (0, [])
      else
        match writeLoopEvents disk d fuel (size - chunk) (offset + chunk) with
        | (n, evs) => (chunk + n, WEvent.dataWrite t :: evs)
    else (0, [])

/-- `inode_write_at (inode, buffer, size, offset)`: returns `bytes_written`,
the ordered list of device writes it performs (record write and data-chunk
writes; the zero-fill writes inside `inode_alloc` are carried by the
returned disk state), and the updated record, device and allocator states.
Faithful to the source: a nonzero `deny_write_cnt` returns 0 at once; a
write past the current length first runs `inode_alloc` and, only on success,
sets the new length and writes the record to its own sector *before* the
data loop runs; on growth failure 0 is returned and no data chunk is
written. -/
def inode_write_at (disk : Disk) (d : InodeDisk) (deny_write_cnt : Nat)
    (size offset : Int) (fm : FMap) :
    Int × List WEvent × InodeDisk × Disk × FMap :=
  if deny_write_cnt ≠ 0 then (0, [], d, disk, fm)
  else if d.length < offset + size then
    match inode_alloc d (offset + size) disk fm with
    | (true, d, disk, fm) =>
      let d2 := { d with length := offset + size }
      match writeLoopEvents disk d2 size.toNat size offset with
      | (n, evs) => (n, WEvent.recordWrite :: evs, d2, disk, fm)
    | (false, d, disk, fm) => (0, [], d, disk, fm)
  else
    match writeLoopEvents disk d size.toNat size offset with
    | (n, evs) => (n, evs, d, disk, fm)

/-- The in-memory inode handle (`struct inode`). -/
structure MInode where
  sector : Nat
  open_cnt : Nat
  deny_write_cnt : Nat
  removed : Bool
  data : InodeDisk

/-- Scan of the `open_inodes` list (`list_begin` .. `list_end`): the first
handle whose `sector` matches. -/
def findInode (l : List MInode) (s : Nat) : Option MInode :=
  l.find? (fun i => i.sector == s)

/-- The open count of the handle for sector `s`, 0 when no handle is live. -/
def openCnt (l : List MInode) (s : Nat) : Nat :=
  match findInode l s with
  | some i => i.open_cnt
  | none => 0

/-- `inode_reopen` applied to the resident handle for `s`: increment the
open count of the first matching handle, leaving everything else untouched. -/
def incFirst : List MInode → Nat → List MInode
  | [], _ => []
  | i :: rest, s =>
    if i.sector == s then { i with open_cnt := i.open_cnt + 1 } :: rest
    else i :: incFirst rest s

/-- `inode_open (sector)`: if a handle for `sector` is already resident, it
is reopened (open count incremented) and returned — without touching the
device; otherwise a fresh handle is pushed on the front of the list and the
record is read from the device (`dev`).  The returned flag records whether
the device was read. -/
def inode_open (dev : Nat → InodeDisk) (l : List MInode) (s : Nat) :
    List MInode × Bool :=
  if (findInode l s).isSome then (incFirst l s, false)
  else
    ({ sector := s, open_cnt := 1, deny_write_cnt := 0, removed := false,
       data := dev s } :: l, true)

/-- `inode_close` applied to the resident handle for `s`: decrement its open
count; on reaching zero remove it from the list and, only if `removed` is
set, release the record's own sector followed by `inode_dealloc`'s releases.
The returned list is the sectors released to the free map; a close never
performs any device write. -/
def closeFirst (disk : Disk) : List MInode → Nat → List MInode × List Nat
  | [], _ => ([], [])
  | i :: rest, s =>
    if i.sector == s then
      if i.open_cnt - 1 = 0 then
        (rest, if i.removed then i.sector :: (inode_dealloc disk i.data).2 else [])
      else ({ i with open_cnt := i.open_cnt - 1 } :: rest, [])
    else
      match closeFirst disk rest s with
      | (rest2, evs) => (i :: rest2, evs)

/-- A lifecycle operation on the open-inodes table, identified by the target
handle's sector (the C caller holds a pointer to a live handle for `reopen`
and `close`). -/
inductive LOp where
  | opn (s : Nat)
  | reopen (s : Nat)
  | close (s : Nat)

/-- Apply one lifecycle operation to the open-inodes list. -/
def runLOp (dev : Nat → InodeDisk) (disk : Disk) (l : List MInode) : LOp → List MInode
  | LOp.opn s => (inode_open dev l s).1
  | LOp.reopen s => incFirst l s
  | LOp.close s => (closeFirst disk l s).1

/-- Apply a sequence of lifecycle operations. -/
def runLOps (dev : Nat → InodeDisk) (disk : Disk) : List LOp → List MInode → List MInode
  | [], l => l
  | op :: t, l => runLOps dev disk t (runLOp dev disk l op)

/-- An operation is valid in a state when `reopen`/`close` target a live
handle (the C caller dereferences a handle pointer obtained from `open`). -/
def opValid (l : List MInode) : LOp → Bool
  | LOp.opn _ => true
  | LOp.reopen s => decide (1 ≤ openCnt l s)
  | LOp.close s => decide (1 ≤ openCnt l s)

/-- A trace of lifecycle operations is valid from a state when every step is
valid in the state it executes in. -/
def validTrace (dev : Nat → InodeDisk) (disk : Disk) : List LOp → List MInode → Bool
  | [], _ => true
  | op :: t, l => opValid l op && validTrace dev disk t (runLOp dev disk l op)

/-- Contribution of one operation to sector `s`'s open/close balance. -/
def opCountFor (s : Nat) : LOp → Int
  | LOp.opn s2 => if s2 = s then 1 else 0
  | LOp.reopen s2 => if s2 = s then 1 else 0
  | LOp.close s2 => if s2 = s then -1 else 0

/-- The number of opens plus reopens minus closes of sector `s` in a trace. -/
def countFor (s : Nat) (t : List LOp) : Int := (t.map (opCountFor s)).sum

/-- Well-formedness of the open-inodes list: at most one handle per sector,
every live handle has a positive open count. -/
def WFState (l : List MInode) : Prop :=
  (l.map (fun i => i.sector)).Nodup ∧ ∀ i ∈ l, 1 ≤ i.open_cnt

/-! Concrete states used to evaluate the code on specific inputs. -/

/-- A device holding one populated indirection block at sector 200 whose
entries point at data sectors 500, 501, ... -/
def exDisk1 : Disk := fun s => if s = 200 then (fun w => 500 + w) else zeroBlock

/-- A record of length 125 sectors (64000 bytes): all 123 direct pointers
live (10, 11, ...), indirect block at sector 200 covering two data sectors. -/
def exInode1 : InodeDisk :=
  { length := 64000, direct_blocks := fun i => if i < 123 then 10 + i else 0,
    indirect_block := 200, doubly_indirect_block := 0, is_dir := false }

/-- A device for the doubly-indirect deallocation scenario: indirect block
600 with data entries 3000+, doubly indirect block 777 whose first entry is
the indirection block 800 with data entries 4000+. -/
def exDisk2 : Disk := fun s =>
  if s = 600 then (fun w => 3000 + w)
  else if s = 777 then (fun w => if w = 0 then 800 else 0)
  else if s = 800 then (fun w => 4000 + w)
  else zeroBlock

/-- A record of length 379 sectors (194048 bytes): full direct and indirect
ranges plus 128 doubly-indirect data sectors. -/
def exInode2 : InodeDisk :=
  { length := 194048, direct_blocks := fun i => 10 + i,
    indirect_block := 600, doubly_indirect_block := 777, is_dir := false }

/-- A device with a doubly-indirect block at 40 whose first outer entry is
the fully populated indirection block 41 (entries 100, 101, ...). -/
def exDisk3 : Disk := fun s =>
  if s = 40 then (fun w => if w = 0 then 41 else 0)
  else if s = 41 then (fun w => 100 + w)
  else zeroBlock

/-- An exhausted free-space allocator. -/
def emptyFM : FMap := { supply := [], allocs := 0, fails := 0 }

/-- A fresh (all-zero pointers) record of the given length, as built by
`inode_create` before allocation. -/
def freshInode (len : Int) : InodeDisk :=
  { length := len, direct_blocks := fun _ => 0, indirect_block := 0,
    doubly_indirect_block := 0, is_dir := false }

/-- Allocator supply for the re-allocation scenario. -/
def exFM3 : FMap := { supply := [61, 62, 63, 64, 65, 66, 67, 68, 69, 70, 71, 72], allocs := 0, fails := 0 }

/-- First grow-to-length call: five sectors (2560 bytes) on a fresh record
over an all-zero device. -/
def exAlloc1 := inode_alloc (freshInode 2560) 2560 (fun _ => zeroBlock) exFM3

/-- Second grow-to-length call with the same target length, on the record,
device and allocator state the first call produced. -/
def exAlloc2 := inode_alloc exAlloc1.2.1 2560 exAlloc1.2.2.1 exAlloc1.2.2.2

/-- Allocator supply of exactly the 252 sectors consumed by the direct and
indirect phases of a 323-sector create, leaving the doubly-indirect phase
to run with an exhausted allocator. -/
def exFM5 : FMap := { supply := List.range' 1000 252, allocs := 0, fails := 0 }

/-- A device for the translation scenario: doubly-indirect block 70 whose
outer entry 0 is the indirection block 71 with entries 900, 901, ... -/
def exDisk4 : Disk := fun s =>
  if s = 70 then (fun w => if w = 0 then 71 else 0)
  else if s = 71 then (fun w => 900 + w)
  else zeroBlock

/-- A record long enough (200000 bytes) that byte offset 128512 — the first
byte of the doubly-indirect range — is in bounds. -/
def exInode4 : InodeDisk :=
  { length := 200000, direct_blocks := fun i => i + 1, indirect_block := 69,
    doubly_indirect_block := 70, is_dir := false }

/-- A device whose indirection block 400 is fully populated (500, 501, ...). -/
def exDisk8 : Disk := fun s => if s = 400 then (fun w => 500 + w) else zeroBlock

/-- A record of length exactly 251 sectors (128512 bytes): direct and
indirect ranges fully allocated, doubly-indirect pointer still 0. -/
def exInode8 : InodeDisk :=
  { length := 128512, direct_blocks := fun i => if i < 123 then 10 + i else 0,
    indirect_block := 400, doubly_indirect_block := 0, is_dir := false }

/-- Ample allocator supply (700, 701, ...) for the growth scenario. -/
def exFM8 : FMap := { supply := List.range' 700 200, allocs := 0, fails := 0 }

/-- A one-byte write at offset 165375 (= 323 * 512 - 1), far past the
128512-byte end of `exInode8`, forcing growth into the doubly-indirect
range. -/
def exWrite8 := inode_write_at exDisk8 exInode8 0 1 165375 exFM8

/-- A device-record reader for lifecycle traces (every sector decodes to the
same record; the lifecycle claims do not depend on record contents). -/
def exDev : Nat → InodeDisk := fun _ => freshInode 0

/-- Open sector 5 twice, reopen it, close it once. -/
def exTrace : List LOp := [LOp.opn 5, LOp.opn 5, LOp.reopen 5, LOp.close 5]

/-- A one-handle open-inodes list: sector 5 open once, not removed. -/
def exHandles : List MInode :=
  [{ sector := 5, open_cnt := 1, deny_write_cnt := 0, removed := false,
     data := freshInode 0 }]

/-! Helper lemmas. -/

/-- The chunking loop never returns a negative count, and never returns more
than the bytes remaining between `offset` and the end of the file. -/
theorem readLoopCount_bounds (fuel : Nat) :
    ∀ (L size offset : Int), 0 ≤ readLoopCount fuel L size offset ∧
      readLoopCount fuel L size offset ≤ max 0 (L - offset) := by
  induction fuel with
  | zero =>
    intro L size offset
    simp [readLoopCount, le_max_left]
  | succ n ih =>
    intro L size offset
    simp only [readLoopCount]
    split
    · split
      · exact ⟨le_refl 0, le_max_left 0 _⟩
      · rename_i hsize hchunk
        obtain ⟨ih1, ih2⟩ :=
          ih L (size - min size (min (L - offset) (512 - Int.tmod offset 512)))
            (offset + min size (min (L - offset) (512 - Int.tmod offset 512)))
        constructor <;> omega
    · exact ⟨le_refl 0, le_max_left 0 _⟩

/-- The data-chunk loop of `inode_write_at` never emits a record write. -/
theorem writeLoopEvents_no_record (disk : Disk) (d : InodeDisk) (fuel : Nat) :
    ∀ (size offset : Int),
      WEvent.recordWrite ∉ (writeLoopEvents disk d fuel size offset).2 := by
  induction fuel with
  | zero => intro size offset; simp [writeLoopEvents]
  | succ n ih =>
    intro size offset
    simp only [writeLoopEvents]
    split
    · split
      · simp
      · rcases h : writeLoopEvents disk d n
            (size - min size (min (d.length - offset) (512 - Int.tmod offset 512)))
            (offset + min size (min (d.length - offset) (512 - Int.tmod offset 512)))
          with ⟨m, evs⟩
        have := ih (size - min size (min (d.length - offset) (512 - Int.tmod offset 512)))
            (offset + min size (min (d.length - offset) (512 - Int.tmod offset 512)))
        rw [h] at this
        simp only [h]
        simpa using this
    · simp

/-- A sector absent from the list has no handle. -/
theorem findInode_eq_none_of_not_mem (l : List MInode) (s : Nat)
    (h : s ∉ l.map (fun i => i.sector)) : findInode l s = none := by
  induction l with
  | nil => rfl
  | cons i rest ih =>
    simp only [List.map_cons, List.mem_cons, not_or] at h
    have hne : (i.sector == s) = false := by
      simp [beq_iff_eq]; exact fun he => h.1 he.symm
    simp only [findInode] at ih ⊢
    rw [List.find?_cons_of_neg _ (by simp [hne])]
    exact ih h.2

/-- Reopening preserves the sector of every handle. -/
theorem incFirst_sectors (l : List MInode) (s : Nat) :
    (incFirst l s).map (fun i => i.sector) = l.map (fun i => i.sector) := by
  induction l with
  | nil => rfl
  | cons i rest ih =>
    by_cases h : i.sector = s
    · simp [incFirst, h]
    · simp [incFirst, h, ih]

/-- Reopening increments the open count of the found handle. -/
theorem findInode_incFirst_self (l : List MInode) (s : Nat) :
    findInode (incFirst l s) s
      = (findInode l s).map (fun i => { i with open_cnt := i.open_cnt + 1 }) := by
  induction l with
  | nil => rfl
  | cons i rest ih =>
    by_cases h : i.sector = s
    · simp [incFirst, findInode, h, List.find?_cons_of_pos]
    · simp only [incFirst, findInode, beq_iff_eq, if_neg h]
      rw [List.find?_cons_of_neg _ (by simp [h]), List.find?_cons_of_neg _ (by simp [h])]
      exact ih

/-- Reopening one sector leaves every other handle untouched. -/
theorem findInode_incFirst_other (l : List MInode) (s s2 : Nat) (h : s2 ≠ s) :
    findInode (incFirst l s) s2 = findInode l s2 := by
  induction l with
  | nil => rfl
  | cons i rest ih =>
    by_cases hi : i.sector = s
    · have hne : (i.sector == s2) = false := by
        rw [beq_eq_false_iff_ne]; rw [hi]; exact fun he => h he.symm
      simp only [incFirst, hi, beq_self_eq_true, if_true, findInode]
      rw [List.find?_cons_of_neg _ (by simp [hi]; exact fun he => h he.symm),
        List.find?_cons_of_neg _ (by simp [hi]; exact fun he => h he.symm)]
    · have hne : (i.sector == s) = false := by rw [beq_eq_false_iff_ne]; exact hi
      simp only [incFirst, hne, Bool.false_eq_true, if_false, findInode]
      by_cases hi2 : i.sector = s2
      · rw [List.find?_cons_of_pos _ (by simp [hi2]), List.find?_cons_of_pos _ (by simp [hi2])]
      · rw [List.find?_cons_of_neg _ (by simp [hi2]), List.find?_cons_of_neg _ (by simp [hi2])]
        exact ih

/-- Reopening keeps all open counts positive. -/
theorem incFirst_cnt (l : List MInode) (s : Nat) (h : ∀ i ∈ l, 1 ≤ i.open_cnt) :
    ∀ i ∈ incFirst l s, 1 ≤ i.open_cnt := by
  induction l with
  | nil => simp [incFirst]
  | cons i rest ih =>
    by_cases hi : i.sector = s
    · simp only [incFirst, beq_iff_eq, if_pos hi]
      intro j hj
      rcases List.mem_cons.mp hj with hj | hj
      · subst hj; simp
      · exact h j (List.mem_cons_of_mem _ hj)
    · simp only [incFirst, beq_iff_eq, if_neg hi]
      intro j hj
      rcases List.mem_cons.mp hj with hj | hj
      · exact hj ▸ h _ (List.mem_cons_self _ _)
      · exact ih (fun k hk => h k (List.mem_cons_of_mem _ hk)) j hj

/-- Closing removes at most one handle: the surviving sectors are a sublist. -/
theorem closeFirst_sectors_sublist (disk : Disk) :
    ∀ (l : List MInode) (s : Nat),
      ((closeFirst disk l s).1.map (fun i => i.sector)).Sublist
        (l.map (fun i => i.sector)) := by
  intro l
  induction l with
  | nil => intro s; simp [closeFirst]
  | cons i rest ih =>
    intro s
    by_cases hi : i.sector = s
    · have hbeq : (i.sector == s) = true := by simp [hi]
      by_cases h0 : i.open_cnt - 1 = 0
      · simp only [closeFirst, hbeq, if_true, h0]
        exact (List.sublist_cons_self _ _)
      · simp only [closeFirst, hbeq, if_true, if_neg h0]
        simp
    · have hbeq : (i.sector == s) = false := by simp [hi]
      rcases hr : closeFirst disk rest s with ⟨rest2, evs⟩
      have := ih s
      rw [hr] at this
      simp only [closeFirst, hbeq, Bool.false_eq_true, if_false, hr, List.map_cons]
      exact List.Sublist.cons₂ _ this

/-- Effect of `inode_close` on open counts: the closed sector's count drops
by one (to zero when the handle is retired), every other sector's count is
unchanged, and the list stays well formed. -/
theorem closeFirst_spec (disk : Disk) :
    ∀ (l : List MInode) (s : Nat), WFState l → 1 ≤ openCnt l s →
      WFState (closeFirst disk l s).1 ∧
      openCnt (closeFirst disk l s).1 s = openCnt l s - 1 ∧
      (∀ s2, s2 ≠ s → openCnt (closeFirst disk l s).1 s2 = openCnt l s2) := by
  intro l
  induction l with
  | nil => intro s _ hcnt; simp [openCnt, findInode] at hcnt
  | cons i rest ih =>
    intro s hwf hcnt
    obtain ⟨hnd, hpos⟩ := hwf
    simp only [List.map_cons, List.nodup_cons] at hnd
    by_cases hi : i.sector = s
    · have hbeq : (i.sector == s) = true := by simp [hi]
      have hhead : openCnt (i :: rest) s = i.open_cnt := by
        simp [openCnt, findInode, List.find?_cons_of_pos, hbeq]
      have hrest_none : findInode rest s = none := by
        apply findInode_eq_none_of_not_mem
        rw [← hi]; exact hnd.1
      by_cases h0 : i.open_cnt - 1 = 0
      · simp only [closeFirst, hbeq, if_true, h0]
        refine ⟨⟨hnd.2, fun j hj => hpos j (List.mem_cons_of_mem _ hj)⟩, ?_, ?_⟩
        · have hfind : List.find? (fun j => j.sector == s) rest = none := hrest_none
          simp [openCnt, findInode, List.find?_cons_of_pos, hbeq, h0, hfind]
        · intro s2 hs2
          have hbeq2 : (i.sector == s2) = false := by
            simp [hi]; exact fun he => hs2 he.symm
          simp [openCnt, findInode, List.find?_cons_of_neg, hbeq2]
      · simp only [closeFirst, hbeq, if_true, if_neg h0]
        refine ⟨⟨by simpa using hnd, ?_⟩, ?_, ?_⟩
        · intro j hj
          rcases List.mem_cons.mp hj with rfl | hj
          · simpa using Nat.one_le_iff_ne_zero.mpr h0
          · exact hpos j (List.mem_cons_of_mem _ hj)
        · rw [hhead]
          simp [openCnt, findInode, List.find?_cons_of_pos, hbeq]
        · intro s2 hs2
          have hbeq2 : (i.sector == s2) = false := by
            simp [hi]; exact fun he => hs2 he.symm
          simp [openCnt, findInode, List.find?_cons_of_neg, hbeq2]
    · have hbeq : (i.sector == s) = false := by simp [hi]
      have hcnt' : 1 ≤ openCnt rest s := by
        simpa [openCnt, findInode, List.find?_cons_of_neg, hbeq] using hcnt
      obtain ⟨ihwf, ihself, ihother⟩ :=
        ih s ⟨hnd.2, fun j hj => hpos j (List.mem_cons_of_mem _ hj)⟩ hcnt'
      rcases hr : closeFirst disk rest s with ⟨rest2, evs⟩
      rw [hr] at ihwf ihself ihother
      have hsub := closeFirst_sectors_sublist disk rest s
      rw [hr] at hsub
      simp only [closeFirst, hbeq, Bool.false_eq_true, if_false, hr]
      refine ⟨⟨?_, ?_⟩, ?_, ?_⟩
      · simp only [List.map_cons, List.nodup_cons]
        exact ⟨fun hmem => hnd.1 (hsub.mem hmem), ihwf.1⟩
      · intro j hj
        rcases List.mem_cons.mp hj with rfl | hj
        · exact hpos _ (List.mem_cons_self _ _)
        · exact ihwf.2 j hj
      · have h1 : openCnt (i :: rest2) s = openCnt rest2 s := by
          simp [openCnt, findInode, List.find?_cons_of_neg, hbeq]
        have h2 : openCnt (i :: rest) s = openCnt rest s := by
          simp [openCnt, findInode, List.find?_cons_of_neg, hbeq]
        rw [h1, h2, ihself]
      · intro s2 hs2
        by_cases hi2 : i.sector = s2
        · have hbeq2 : (i.sector == s2) = true := by simp [hi2]
          simp [openCnt, findInode, List.find?_cons_of_pos, hbeq2]
        · have hbeq2 : (i.sector == s2) = false := by simp [hi2]
          have h1 : openCnt (i :: rest2) s2 = openCnt rest2 s2 := by
            simp [openCnt, findInode, List.find?_cons_of_neg, hbeq2]
          have h2 : openCnt (i :: rest) s2 = openCnt rest s2 := by
            simp [openCnt, findInode, List.find?_cons_of_neg, hbeq2]
          rw [h1, h2, ihother s2 hs2]

/-- Reopening a live handle adds one to its sector's count and nothing else. -/
theorem incFirst_openCnt_spec (l : List MInode) (s2 : Nat)
    (hfound : (findInode l s2).isSome = true) :
    ∀ s, (openCnt (incFirst l s2) s : Int)
      = (openCnt l s : Int) + (if s2 = s then 1 else 0) := by
  intro s
  by_cases hs : s2 = s
  · subst hs
    obtain ⟨j, hj⟩ := Option.isSome_iff_exists.mp hfound
    simp [openCnt, findInode_incFirst_self, hj]
  · rw [openCnt, findInode_incFirst_other l s2 s (fun he => hs he.symm)]
    simp [openCnt, hs]

/-- Effect of one lifecycle operation: well-formedness is preserved and each
sector's open count moves by exactly the operation's contribution. -/
theorem runLOp_spec (dev : Nat → InodeDisk) (disk : Disk) (l : List MInode) (op : LOp)
    (hwf : WFState l) (hv : opValid l op = true) :
    WFState (runLOp dev disk l op) ∧
    ∀ s, (openCnt (runLOp dev disk l op) s : Int)
      = (openCnt l s : Int) + opCountFor s op := by
  obtain ⟨hnd, hpos⟩ := hwf
  cases op with
  | opn s2 =>
    simp only [runLOp, inode_open]
    by_cases hfound : (findInode l s2).isSome = true
    · simp only [hfound, if_true]
      refine ⟨⟨by rw [incFirst_sectors]; exact hnd, incFirst_cnt l s2 hpos⟩, ?_⟩
      intro s
      rw [incFirst_openCnt_spec l s2 hfound s]
      simp [opCountFor]
    · have hnone : findInode l s2 = none := by
        rcases h : findInode l s2 with _ | j
        · rfl
        · rw [h] at hfound; simp at hfound
      simp only [hnone, Option.isSome_none, Bool.false_eq_true, if_false]
      have hnotmem : s2 ∉ l.map (fun i => i.sector) := by
        intro hmem
        obtain ⟨j, hjmem, hjs⟩ := List.mem_map.mp hmem
        have := List.find?_eq_none.mp hnone j hjmem
        simp [hjs] at this
      refine ⟨⟨?_, ?_⟩, ?_⟩
      · simp only [List.map_cons, List.nodup_cons]
        exact ⟨hnotmem, hnd⟩
      · intro j hj
        rcases List.mem_cons.mp hj with rfl | hj
        · simp
        · exact hpos j hj
      · intro s
        by_cases hs : s2 = s
        · subst hs
          have hfind : List.find? (fun j => j.sector == s2) l = none := hnone
          simp [openCnt, findInode, List.find?_cons_of_pos, hfind, opCountFor]
        · simp only [opCountFor, if_neg hs, openCnt, findInode]
          rw [List.find?_cons_of_neg _ (by simp [hs])]
          simp
  | reopen s2 =>
    have hcnt : 1 ≤ openCnt l s2 := of_decide_eq_true hv
    have hfound : (findInode l s2).isSome = true := by
      rcases h : findInode l s2 with _ | j
      · simp [openCnt, h] at hcnt
      · rfl
    simp only [runLOp]
    refine ⟨⟨by rw [incFirst_sectors]; exact hnd, incFirst_cnt l s2 hpos⟩, ?_⟩
    intro s
    rw [incFirst_openCnt_spec l s2 hfound s]
    simp [opCountFor]
  | close s2 =>
    have hcnt : 1 ≤ openCnt l s2 := of_decide_eq_true hv
    obtain ⟨hwf2, hself, hother⟩ := closeFirst_spec disk l s2 ⟨hnd, hpos⟩ hcnt
    simp only [runLOp]
    refine ⟨hwf2, ?_⟩
    intro s
    by_cases hs : s2 = s
    · subst hs
      rw [hself, Nat.cast_sub hcnt]
      simp [opCountFor]
      ring
    · rw [hother s (fun he => hs he.symm)]
      simp [opCountFor, hs]

/-- Running a valid trace moves every sector's open count by exactly its
open/close balance. -/
theorem runLOps_count (dev : Nat → InodeDisk) (disk : Disk) :
    ∀ (t : List LOp) (l : List MInode), WFState l → validTrace dev disk t l = true →
      WFState (runLOps dev disk t l) ∧
      ∀ s, (openCnt (runLOps dev disk t l) s : Int)
        = (openCnt l s : Int) + countFor s t := by
  intro t
  induction t with
  | nil =>
    intro l hwf _
    exact ⟨hwf, fun s => by simp [runLOps, countFor]⟩
  | cons op t ih =>
    intro l hwf hv
    simp only [validTrace, Bool.and_eq_true] at hv
    obtain ⟨hwf2, hcnt2⟩ := runLOp_spec dev disk l op hwf hv.1
    obtain ⟨hwf3, hcnt3⟩ := ih (runLOp dev disk l op) hwf2 hv.2
    refine ⟨hwf3, fun s => ?_⟩
    simp only [runLOps]
    rw [hcnt3 s, hcnt2 s]
    simp only [countFor, List.map_cons, List.sum_cons]
    omega

/-! Claim theorems. -/

/-- Claim C1, evaluated at failing inputs.  The claim says `inode_dealloc`
releases every data sector at the leaves and every indirection block on the
way back up, each exactly once, children before parents.  The code instead:
for a record whose indirect block 200 covers data sectors 500 and 501, it
releases the direct blocks and the indirection block 200 but never the data
sectors 500/501 (the `height == 1` early return frees only the entry
itself); and for a record with a doubly indirect block 777, it releases 777
twice, and never releases the indirect-level data sectors (3000...) nor the
doubly-indirect leaf sectors (4000...). -/
theorem inode_dealloc_leaks_leaf_sectors :
    (inode_dealloc exDisk1 exInode1).1 = true ∧
    200 ∈ (inode_dealloc exDisk1 exInode1).2 ∧
    500 ∉ (inode_dealloc exDisk1 exInode1).2 ∧
    501 ∉ (inode_dealloc exDisk1 exInode1).2 ∧
    (inode_dealloc exDisk2 exInode2).2.count 777 = 2 ∧
    3000 ∉ (inode_dealloc exDisk2 exInode2).2 ∧
    4000 ∉ (inode_dealloc exDisk2 exInode2).2 := by decide

/-- Claim C2, evaluated at the failing input.  The claim says a height-2
call covering `count` entries populates the first `ceil(count/128)` outer
entries, so `count = 200` must populate outer entries 0 and 1, and success
is returned only when every required sector is backed.  The code computes
`limit = 200 / 128 = 1` (floor), never visits outer entry 1 (it stays 0 and
no allocator request is made for the 72 remaining sectors), yet returns
success. -/
theorem inode_alloc_iblock_partial_child_skipped :
    (inode_alloc_iblock 40 200 2 exDisk3 emptyFM).1 = true ∧
    (inode_alloc_iblock 40 200 2 exDisk3 emptyFM).2.2.1 40 1 = 0 ∧
    (inode_alloc_iblock 40 200 2 exDisk3 emptyFM).2.2.2.allocs = 0 := by decide

/-- Claim C3, evaluated at the failing input.  The claim says a second
`inode_alloc` with the same target length leaves the tree identical and
requests no new sector.  After a first call allocates the five direct
sectors of a 2560-byte record (5 requests, indirect pointer still 0), the
second identical call issues six further allocator requests (total 11) and
links a fresh indirect block (sector 66) with five spurious data sectors:
the direct loop fails to count already-allocated blocks, so the remaining
count spills into the indirect range. -/
theorem inode_alloc_not_idempotent :
    exAlloc1.1 = true ∧ exAlloc1.2.2.2.allocs = 5 ∧ exAlloc1.2.1.indirect_block = 0 ∧
    exAlloc2.1 = true ∧ exAlloc2.2.2.2.allocs = 11 ∧ exAlloc2.2.1.indirect_block = 66 := by
  decide

/-- Claim C4, evaluated at the failing input.  The claim says a byte offset
in the double-indirect range returns the entry at inner position
`(sector_index - N_DIRECT - 128) mod 128` of the designated indirection
block; at offset 128512 (sector index 251, the first double-indirect
sector) that is entry 0 of block 71, namely sector 900.  The code computes
the inner index as `251 - ((N_DIRECT + 128) % 128) = 128`, one past the end
of the 128-entry `block_ptrs` array (a C operator-precedence slip), an
out-of-bounds read. -/
theorem byte_to_sector_double_indirect_oob :
    byte_to_sector exDisk4 exInode4 128512 = TransResult.undef ∧
    byte_to_sector exDisk4 exInode4 128512
      ≠ TransResult.found (exDisk4 (exDisk4 exInode4.doubly_indirect_block 0) 0) := by decide

/-- Claim C5, evaluated at the failing input.  The claim says any failed
free-map request at any level — including the allocation of an indirection
block itself — fails the whole allocate call, so `inode_create` reports
failure.  With an exhausted allocator, a height-2 call for 72 sectors
returns success after two failed (and unchecked) requests for the
indirection blocks themselves; and an `inode_create` of 323 sectors whose
allocator runs dry after the 252 direct/indirect sectors likewise reports
success with two failed requests, the 72 doubly-indirect sectors never
backed. -/
theorem inode_alloc_iblock_unchecked_failure :
    (inode_alloc_iblock 0 72 2 (fun _ => zeroBlock) emptyFM).1 = true ∧
    (inode_alloc_iblock 0 72 2 (fun _ => zeroBlock) emptyFM).2.2.2.fails = 2 ∧
    (inode_create 165376 false (fun _ => zeroBlock) exFM5).1 = true ∧
    (inode_create 165376 false (fun _ => zeroBlock) exFM5).2.2.fails = 2 := by decide

/-- Claim C6: a write whose deny-write count is nonzero returns 0
immediately; a growing write whose block-map growth fails returns 0 and
transfers no data byte; a growing write whose growth succeeds persists the
new length `offset + size` to the record's sector before any data-chunk
write. -/
theorem inode_write_at_growth_ordering (disk : Disk) (d : InodeDisk) (deny : Nat)
    (size offset : Int) (fm : FMap) :
    (deny ≠ 0 → inode_write_at disk d deny size offset fm = (0, [], d, disk, fm)) ∧
    (deny = 0 → d.length < offset + size →
      ((inode_alloc d (offset + size) disk fm).1 = false →
        (inode_write_at disk d deny size offset fm).1 = 0 ∧
        (inode_write_at disk d deny size offset fm).2.1 = []) ∧
      ((inode_alloc d (offset + size) disk fm).1 = true →
        ∃ evs, (inode_write_at disk d deny size offset fm).2.1 = WEvent.recordWrite :: evs ∧
          WEvent.recordWrite ∉ evs ∧
          (inode_write_at disk d deny size offset fm).2.2.1.length = offset + size)) := by
  constructor
  · intro hd
    simp [inode_write_at, hd]
  · intro hd hlen
    rcases ha : inode_alloc d (offset + size) disk fm with ⟨ok, d2, disk2, fm2⟩
    constructor
    · intro hok
      have hok2 : ok = false := hok
      subst hok2
      simp [inode_write_at, hd, hlen, ha]
    · intro hok
      have hok2 : ok = true := hok
      subst hok2
      rcases hw : writeLoopEvents disk2 { d2 with length := offset + size }
          size.toNat size offset with ⟨n, evs⟩
      refine ⟨evs, ?_, ?_, ?_⟩
      · simp [inode_write_at, hd, hlen, ha, hw]
      · have := writeLoopEvents_no_record disk2 { d2 with length := offset + size }
          size.toNat size offset
        rw [hw] at this
        simpa using this
      · simp [inode_write_at, hd, hlen, ha, hw]

/-- Witness for C6: the three cases of `inode_write_at_growth_ordering` at
concrete inputs — a denied write returns 0 untouched; a growing write with
an exhausted allocator returns 0 with no events; the growing one-byte write
of the `exWrite8` scenario leads with the record write and persists length
165376. -/
theorem inode_write_at_growth_ordering_witness :
    inode_write_at exDisk8 exInode8 1 1 165375 exFM8 = (0, [], exInode8, exDisk8, exFM8) ∧
    (inode_write_at (fun _ => zeroBlock) (freshInode 0) 0 600 0 emptyFM).1 = 0 ∧
    (∃ evs, exWrite8.2.1 = WEvent.recordWrite :: evs ∧ WEvent.recordWrite ∉ evs ∧
      exWrite8.2.2.1.length = 165375 + 1) := by
  refine ⟨(inode_write_at_growth_ordering exDisk8 exInode8 1 1 165375 exFM8).1 (by decide),
    (((inode_write_at_growth_ordering (fun _ => zeroBlock) (freshInode 0) 0 600 0 emptyFM).2
      rfl (by decide)).1 (by decide)).1, ?_⟩
  exact ((inode_write_at_growth_ordering exDisk8 exInode8 0 1 165375 exFM8).2
    rfl (by decide)).2 (by decide)

/-- Claim C7: `inode_read_at` never reads past end of file — the returned
count is nonnegative, at most `max 0 (length - offset)` (in particular a
read at or past the length returns 0), and the last byte delivered lies
strictly below the record's length. -/
theorem inode_read_at_never_past_eof (d : InodeDisk) (size offset : Int) :
    0 ≤ inode_read_at_count d size offset ∧
    inode_read_at_count d size offset ≤ max 0 (d.length - offset) ∧
    offset + inode_read_at_count d size offset ≤ max offset d.length := by
  obtain ⟨h1, h2⟩ := readLoopCount_bounds size.toNat d.length size offset
  refine ⟨h1, h2, ?_⟩
  unfold inode_read_at_count
  omega

/-- Claim C8, evaluated at the failing input.  The claim says every sector
newly allocated during growth is zero-filled before being linked, so the
untouched gap of a grown file reads back as zeros.  Growing the 128512-byte
`exInode8` by a one-byte write at offset 165375 reports success (1 byte
written, length persisted), yet translating gap offset 153600 afterwards is
an out-of-bounds indirection access (undefined behaviour): the growth left
the gap's subtree partially unbacked and the double-indirect translation is
broken, so the gap does not read back as zeros. -/
theorem growth_gap_not_zero_filled :
    exWrite8.1 = 1 ∧
    exWrite8.2.2.1.doubly_indirect_block = 700 ∧
    byte_to_sector exWrite8.2.2.2.1 exWrite8.2.2.1 153600 = TransResult.undef := by decide

/-- Claim C9: running any valid trace of open/reopen/close operations from
an empty table leaves every sector's open count equal to its opens plus
reopens minus closes; and opening a sector with a live handle returns that
very handle incremented — no device read, every other handle untouched. -/
theorem open_shared_handle_invariant :
    (∀ (dev : Nat → InodeDisk) (disk : Disk) (t : List LOp),
      validTrace dev disk t [] = true →
      ∀ s, (openCnt (runLOps dev disk t []) s : Int) = countFor s t) ∧
    (∀ (dev : Nat → InodeDisk) (l : List MInode) (s : Nat),
      (findInode l s).isSome = true →
      inode_open dev l s = (incFirst l s, false) ∧
      (openCnt (incFirst l s) s : Int) = (openCnt l s : Int) + 1 ∧
      ∀ s2, s2 ≠ s → findInode (incFirst l s) s2 = findInode l s2) := by
  constructor
  · intro dev disk t hv s
    have h := (runLOps_count dev disk t [] ⟨by simp, by simp⟩ hv).2 s
    simpa [openCnt, findInode] using h
  · intro dev l s hfound
    refine ⟨by simp [inode_open, hfound], ?_,
      fun s2 hs2 => findInode_incFirst_other l s s2 hs2⟩
    simpa using incFirst_openCnt_spec l s hfound s

/-- Witness for C9: the trace open 5, open 5, reopen 5, close 5 leaves
sector 5 with open count 2, and opening live sector 5 is a pure increment
with no device read. -/
theorem open_shared_handle_invariant_witness :
    (openCnt (runLOps exDev exDisk1 exTrace []) 5 : Int) = countFor 5 exTrace ∧
    inode_open exDev exHandles 5 = (incFirst exHandles 5, false) := by
  exact ⟨open_shared_handle_invariant.1 exDev exDisk1 exTrace (by decide) 5,
    (open_shared_handle_invariant.2 exDev exHandles 5 (by decide)).1⟩

/-- Claim C10: closing a handle whose removed flag is false releases no
sector and performs no device write, even when it is the last close; and a
write that does not grow the file (the non-growth path of `inode_write_at`)
never writes the record's own sector. -/
theorem close_unremoved_frame :
    (∀ (disk : Disk) (l : List MInode) (s : Nat) (i : MInode),
      findInode l s = some i → i.removed = false →
      (closeFirst disk l s).2 = []) ∧
    (∀ (disk : Disk) (d : InodeDisk) (deny : Nat) (size offset : Int) (fm : FMap),
      offset + size ≤ d.length →
      WEvent.recordWrite ∉ (inode_write_at disk d deny size offset fm).2.1) := by
  constructor
  · intro disk l
    induction l with
    | nil => intro s i h _; simp [findInode] at h
    | cons j rest ih =>
      intro s i hfind hrem
      by_cases hj : j.sector = s
      · have hbeq : (j.sector == s) = true := by simp [hj]
        have hij : j = i := by
          simpa [findInode, List.find?_cons_of_pos, hbeq] using hfind
        subst hij
        simp only [closeFirst, hbeq, if_true]
        by_cases h0 : j.open_cnt - 1 = 0
        · simp [h0, hrem]
        · simp [h0]
      · have hbeq : (j.sector == s) = false := by simp [hj]
        have hfind2 : findInode rest s = some i := by
          simpa [findInode, List.find?_cons_of_neg, hbeq] using hfind
        rcases hr : closeFirst disk rest s with ⟨rest2, evs⟩
        have := ih s i hfind2 hrem
        rw [hr] at this
        simp [closeFirst, hbeq, hr, this]
  · intro disk d deny size offset fm hle
    by_cases hd : deny ≠ 0
    · simp [inode_write_at, hd]
    · have hlen : ¬d.length < offset + size := not_lt.mpr hle
      simp only [inode_write_at, hd, if_false, hlen, ne_eq, not_false_eq_true,
        not_true_eq_false]
      rcases hw : writeLoopEvents disk d size.toNat size offset with ⟨n, evs⟩
      have := writeLoopEvents_no_record disk d size.toNat size offset
      rw [hw] at this
      simpa [hw] using this

/-- Witness for C10: closing the single non-removed handle for sector 5
releases nothing, and a 10-byte in-bounds write never writes the record
sector. -/
theorem close_unremoved_frame_witness :
    (closeFirst exDisk1 exHandles 5).2 = [] ∧
    WEvent.recordWrite ∉ (inode_write_at exDisk8 exInode8 0 10 100 exFM8).2.1 := by
  exact ⟨close_unremoved_frame.1 exDisk1 exHandles 5
      { sector := 5, open_cnt := 1, deny_write_cnt := 0, removed := false,
        data := freshInode 0 } rfl rfl,
    close_unremoved_frame.2 exDisk8 exInode8 0 10 100 exFM8 (by decide)⟩
